import Mathlib

/-!
Verification of the PinterestBackground core against its specification.

The definitions below are a shallow embedding of the TypeScript sources:

* `src/extension/wallhaven/catalog.ts` — catalog store (dedupe, merge,
  favorites, prune);
* `src/extension/wallhaven/types.ts` (cache part) — content cache
  (`hashText`, `toExt`, `downloadImage`) and time utility
  (`parseRefreshTime`);
* `src/extension/wallhaven/index.ts` — the sync pipeline (`syncNow`);
* `src/services/wallpaper.ts` and `src/state/store.ts` — the daily
  rotation scheduler and its persisted state.

JS numbers are modelled as `Nat`/`Int` (the code only uses integral
values in the relevant places), JS strings as `String` or `List Char`,
`Set` membership as list membership, and filesystem / network effects as
explicit state and environment parameters.
-/

/-- `CachedImage` from `types.ts`: one cached feed or favorites entry. -/
structure CachedImage where
  id : String
  sourceUrl : String
  localPath : String
  tags : List String
  fetchedAt : Nat
deriving DecidableEq, Repr, Inhabited

/-- `Catalog` from `types.ts`: the persisted catalog snapshot. -/
structure Catalog where
  feed : List CachedImage
  favorites : List CachedImage
  lastSyncAt : Option Nat := none
  nextScheduledAt : Option Nat := none
  mapping : Option String := none
  lastError : Option String := none
deriving DecidableEq, Repr, Inhabited

/-- The recursive worker behind `dedupeById` in `catalog.ts`: walks the
list keeping the first occurrence of each `id`; `seen` is the mutable
`Set<string>` of ids already kept. -/
def dedupeGo (seen : List String) : List CachedImage → List CachedImage
  | [] => []
  | item :: rest =>
    if item.id ∈ seen then dedupeGo seen rest
    else item :: dedupeGo (item.id :: seen) rest

/-- `dedupeById` from `catalog.ts`: deduplicate by `id`, first occurrence
wins. -/
def dedupeById (items : List CachedImage) : List CachedImage :=
  dedupeGo [] items

/-- `mergeFeed` from `catalog.ts`: prepend fresh items to the feed and
deduplicate by id. -/
def mergeFeed (catalog : Catalog) (fresh : List CachedImage) : Catalog :=
  { catalog with feed := dedupeById (fresh ++ catalog.feed) }

/-- `addFavorite` from `catalog.ts`: prepend the item to favorites and
deduplicate by id. -/
def addFavorite (catalog : Catalog) (item : CachedImage) : Catalog :=
  { catalog with favorites := dedupeById (item :: catalog.favorites) }

/-- `removeFavorite` from `catalog.ts`: drop every favorite with the
given id. -/
def removeFavorite (catalog : Catalog) (id : String) : Catalog :=
  { catalog with favorites := catalog.favorites.filter (fun item => item.id ≠ id) }

/-- Index of the last `false` in a boolean list, mirroring
`array.lastIndexOf(false)` in `pruneCatalog` (`none` for the JS `-1`). -/
def lastIndexOfFalse : List Bool → Option Nat
  | [] => none
  | b :: rest =>
    match lastIndexOfFalse rest with
    | some i => some (i + 1)
    | none => if b then none else some 0

theorem lastIndexOfFalse_lt {bs : List Bool} {i : Nat}
    (h : lastIndexOfFalse bs = some i) : i < bs.length := by
  induction bs generalizing i with
  | nil => simp [lastIndexOfFalse] at h
  | cons b rest ih =>
    simp only [lastIndexOfFalse] at h
    cases hr : lastIndexOfFalse rest with
    | some j =>
      rw [hr] at h; cases h
      have := ih hr
      simp only [List.length_cons]; omega
    | none =>
      rw [hr] at h
      split at h <;> simp_all <;> omega

/-- The `while` loop of `pruneCatalog`: while the pool is over budget,
remove the last element whose id is not favorited, pushing it onto
`removed`; stop when no removable element remains. -/
def pruneLoop (favIds : List String) (keep : Nat)
    (result removed : List CachedImage) : List CachedImage × List CachedImage :=
  if result.length > keep then
    match h : lastIndexOfFalse (result.map (fun item => favIds.contains item.id)) with
    | none => (result, removed)
    | some i => pruneLoop favIds keep (result.eraseIdx i) (removed ++ [result.getD i default])
  else (result, removed)
termination_by result.length
decreasing_by
  have hlt := lastIndexOfFalse_lt h
  rw [List.length_map] at hlt
  rw [List.length_eraseIdx]
  simp only [hlt, if_pos]
  omega

/-- `pruneCatalog` from `catalog.ts`: evict the most recent non-favorited
feed entries until the feed is within `max(1, maxItems)` or only
favorited entries remain; returns the pruned catalog and the removed
items.  `maxItems` is an `Int` because the JS caller may pass any
number. -/
def pruneCatalog (catalog : Catalog) (maxItems : Int) : Catalog × List CachedImage :=
  let keep := (max 1 maxItems).toNat
  let favoriteIds := catalog.favorites.map (fun item => item.id)
  let pr := pruneLoop favoriteIds keep catalog.feed []
  ({ catalog with feed := pr.1 }, pr.2)

theorem dedupeGo_congr {seen₁ seen₂ : List String}
    (h : ∀ a, a ∈ seen₁ ↔ a ∈ seen₂) (l : List CachedImage) :
    dedupeGo seen₁ l = dedupeGo seen₂ l := by
  induction l generalizing seen₁ seen₂ with
  | nil => rfl
  | cons item rest ih =>
    simp only [dedupeGo]
    by_cases hm : item.id ∈ seen₁
    · rw [if_pos hm, if_pos ((h _).1 hm)]
      exact ih h
    · rw [if_neg hm, if_neg (fun hx => hm ((h _).2 hx))]
      congr 1
      apply ih
      intro a
      simp only [List.mem_cons, h a]

theorem dedupeGo_append (xs : List CachedImage) (seen : List String) (ys : List CachedImage) :
    dedupeGo seen (xs ++ ys) =
      dedupeGo seen xs ++
        dedupeGo ((dedupeGo seen xs).map (fun a => a.id) ++ seen) ys := by
  induction xs generalizing seen with
  | nil => simp [dedupeGo]
  | cons x xs ih =>
    simp only [List.cons_append, dedupeGo]
    by_cases hm : x.id ∈ seen
    · rw [if_pos hm, if_pos hm]
      exact ih seen
    · rw [if_neg hm, if_neg hm]
      simp only [List.map_cons, List.cons_append, List.append_eq]
      rw [ih (x.id :: seen)]
      congr 1
      congr 1
      apply dedupeGo_congr
      intro a
      simp only [List.mem_append, List.mem_cons]
      tauto

theorem dedupeGo_id_not_seen {seen : List String} {l : List CachedImage} {a : CachedImage}
    (ha : a ∈ dedupeGo seen l) : a.id ∉ seen := by
  induction l generalizing seen with
  | nil => simp [dedupeGo] at ha
  | cons item rest ih =>
    simp only [dedupeGo] at ha
    split at ha
    · exact ih ha
    · rcases List.mem_cons.1 ha with rfl | hmem
      · assumption
      · intro hx
        exact ih hmem (List.mem_cons_of_mem _ hx)

theorem dedupeGo_nodup (seen : List String) (l : List CachedImage) :
    ((dedupeGo seen l).map (fun a => a.id)).Nodup := by
  induction l generalizing seen with
  | nil => simp [dedupeGo]
  | cons item rest ih =>
    simp only [dedupeGo]
    split
    · exact ih _
    · simp only [List.map_cons, List.nodup_cons]
      refine ⟨fun hmem => ?_, ih _⟩
      rcases List.mem_map.1 hmem with ⟨b, hb, hid⟩
      exact dedupeGo_id_not_seen hb (by rw [hid]; exact List.mem_cons_self _ _)

theorem dedupeGo_eq_nil {seen : List String} {l : List CachedImage}
    (h : ∀ a ∈ l, a.id ∈ seen) : dedupeGo seen l = [] := by
  induction l with
  | nil => rfl
  | cons item rest ih =>
    simp only [dedupeGo]
    rw [if_pos (h _ (List.mem_cons_self _ _))]
    exact ih (fun a ha => h a (List.mem_cons_of_mem _ ha))

theorem dedupeGo_eq_self {seen : List String} {l : List CachedImage}
    (hnd : (l.map (fun a => a.id)).Nodup) (hdisj : ∀ a ∈ l, a.id ∉ seen) :
    dedupeGo seen l = l := by
  induction l generalizing seen with
  | nil => rfl
  | cons item rest ih =>
    simp only [List.map_cons, List.nodup_cons] at hnd
    simp only [dedupeGo]
    rw [if_neg (hdisj _ (List.mem_cons_self _ _))]
    congr 1
    apply ih hnd.2
    intro a ha
    simp only [List.mem_cons]
    rintro (h1 | h2)
    · exact hnd.1 (List.mem_map.2 ⟨a, ha, h1⟩)
    · exact hdisj a (List.mem_cons_of_mem _ ha) h2

theorem lastIndexOfFalse_get {bs : List Bool} {i : Nat}
    (h : lastIndexOfFalse bs = some i) : bs.getD i true = false := by
  induction bs generalizing i with
  | nil => simp [lastIndexOfFalse] at h
  | cons b rest ih =>
    simp only [lastIndexOfFalse] at h
    cases hr : lastIndexOfFalse rest with
    | some j =>
      rw [hr] at h; cases h
      simpa using ih hr
    | none =>
      rw [hr] at h
      cases b with
      | false => simp at h; simp [← h]
      | true => simp at h

theorem lastIndexOfFalse_none {bs : List Bool}
    (h : lastIndexOfFalse bs = none) : ∀ b ∈ bs, b = true := by
  induction bs with
  | nil => simp
  | cons b rest ih =>
    simp only [lastIndexOfFalse] at h
    cases hr : lastIndexOfFalse rest with
    | some j => rw [hr] at h; cases h
    | none =>
      rw [hr] at h
      cases b with
      | false => simp at h
      | true =>
        intro x hx
        rcases List.mem_cons.1 hx with rfl | hx
        · rfl
        · exact ih hr x hx

theorem lastIndexOfFalse_map_getD {f : CachedImage → Bool} {l : List CachedImage} {i : Nat}
    (h : lastIndexOfFalse (l.map f) = some i) : f (l.getD i default) = false := by
  have hlt := lastIndexOfFalse_lt h
  rw [List.length_map] at hlt
  have hget := lastIndexOfFalse_get h
  rw [List.getD_eq_getElem _ _ (by rw [List.length_map]; exact hlt), List.getElem_map] at hget
  rw [List.getD_eq_getElem _ _ hlt]
  exact hget

theorem pruneLoop_of_le {favIds : List String} {keep : Nat}
    {result removed : List CachedImage} (hle : ¬ result.length > keep) :
    pruneLoop favIds keep result removed = (result, removed) := by
  rw [pruneLoop, if_neg hle]

theorem pruneLoop_of_none {favIds : List String} {keep : Nat}
    {result removed : List CachedImage} (hlen : result.length > keep)
    (hnone : lastIndexOfFalse (result.map (fun item => favIds.contains item.id)) = none) :
    pruneLoop favIds keep result removed = (result, removed) := by
  rw [pruneLoop, if_pos hlen]
  split
  · rfl
  · rename_i i heq
    rw [hnone] at heq
    cases heq

theorem pruneLoop_of_some {favIds : List String} {keep : Nat}
    {result removed : List CachedImage} {i : Nat} (hlen : result.length > keep)
    (hsome : lastIndexOfFalse (result.map (fun item => favIds.contains item.id)) = some i) :
    pruneLoop favIds keep result removed =
      pruneLoop favIds keep (result.eraseIdx i) (removed ++ [result.getD i default]) := by
  rw [pruneLoop, if_pos hlen]
  split
  · rename_i heq
    rw [hsome] at heq
    cases heq
  · rename_i j heq
    rw [hsome] at heq
    cases heq
    rfl

theorem pruneLoop_sublist (favIds : List String) (keep : Nat)
    (result removed : List CachedImage) :
    (pruneLoop favIds keep result removed).1.Sublist result := by
  induction result, removed using pruneLoop.induct favIds keep with
  | case1 result removed hlen hnone =>
    rw [pruneLoop_of_none hlen hnone]
  | case2 result removed hlen i hsome ih =>
    rw [pruneLoop_of_some hlen hsome]
    exact ih.trans (List.eraseIdx_sublist result i)
  | case3 result removed hlen =>
    rw [pruneLoop_of_le hlen]

theorem pruneLoop_post (favIds : List String) (keep : Nat)
    (result removed : List CachedImage) :
    (pruneLoop favIds keep result removed).1.length ≤ keep ∨
      ∀ a ∈ (pruneLoop favIds keep result removed).1, favIds.contains a.id = true := by
  induction result, removed using pruneLoop.induct favIds keep with
  | case1 result removed hlen hnone =>
    right
    rw [pruneLoop_of_none hlen hnone]
    intro a ha
    exact lastIndexOfFalse_none hnone _ (List.mem_map.2 ⟨a, ha, rfl⟩)
  | case2 result removed hlen i hsome ih =>
    rw [pruneLoop_of_some hlen hsome]
    exact ih
  | case3 result removed hlen =>
    left
    rw [pruneLoop_of_le hlen]
    show result.length ≤ keep
    omega

theorem pruneLoop_removed (favIds : List String) (keep : Nat)
    (result removed : List CachedImage) :
    ∀ x ∈ (pruneLoop favIds keep result removed).2,
      x ∈ removed ∨ favIds.contains x.id = false := by
  induction result, removed using pruneLoop.induct favIds keep with
  | case1 result removed hlen hnone =>
    rw [pruneLoop_of_none hlen hnone]
    intro x hx
    exact Or.inl hx
  | case2 result removed hlen i hsome ih =>
    rw [pruneLoop_of_some hlen hsome]
    intro x hx
    rcases ih x hx with hmem | hfalse
    · rcases List.mem_append.1 hmem with h1 | h2
      · exact Or.inl h1
      · right
        have hx' : x = result.getD i default := by simpa using h2
        rw [hx']
        exact lastIndexOfFalse_map_getD hsome
    · exact Or.inr hfalse
  | case3 result removed hlen =>
    rw [pruneLoop_of_le hlen]
    intro x hx
    exact Or.inl hx

theorem pruneLoop_nonempty (favIds : List String) {keep : Nat} (hkeep : 1 ≤ keep)
    (result removed : List CachedImage) (hne : result ≠ []) :
    (pruneLoop favIds keep result removed).1 ≠ [] := by
  induction result, removed using pruneLoop.induct favIds keep with
  | case1 result removed hlen hnone =>
    rw [pruneLoop_of_none hlen hnone]
    exact hne
  | case2 result removed hlen i hsome ih =>
    rw [pruneLoop_of_some hlen hsome]
    apply ih
    have hlt := lastIndexOfFalse_lt hsome
    rw [List.length_map] at hlt
    rw [← List.length_pos, List.length_eraseIdx]
    simp only [hlt, if_pos]
    omega
  | case3 result removed hlen =>
    rw [pruneLoop_of_le hlen]
    exact hne

theorem pruneLoop_noop {favIds : List String} {keep : Nat}
    {result removed : List CachedImage} (hle : result.length ≤ keep) :
    pruneLoop favIds keep result removed = (result, removed) :=
  pruneLoop_of_le (by omega)

theorem dedupeById_merge_idem (f l : List CachedImage) :
    dedupeById (f ++ dedupeById (f ++ l)) = dedupeById (f ++ l) := by
  unfold dedupeById
  rw [dedupeGo_append f [] l, List.append_nil]
  rw [dedupeGo_append f [] _, List.append_nil]
  congr 1
  rw [dedupeGo_append]
  rw [dedupeGo_eq_nil (fun a ha => List.mem_map.2 ⟨a, ha, rfl⟩)]
  simp only [List.map_nil, List.nil_append]
  exact dedupeGo_eq_self (dedupeGo_nodup _ _) (fun a ha => dedupeGo_id_not_seen ha)

/-- C4: merge is idempotent — merging the same fresh list twice yields the
same feed (even as a list, hence in particular as an id-set) as merging it
once. -/
theorem mergeFeed_idempotent (catalog : Catalog) (fresh : List CachedImage) :
    (mergeFeed (mergeFeed catalog fresh) fresh).feed = (mergeFeed catalog fresh).feed := by
  simp only [mergeFeed]
  exact dedupeById_merge_idem fresh catalog.feed

/-- C5: pruning never removes an item whose id is favorited. -/
theorem pruneCatalog_never_removes_favorites (catalog : Catalog) (maxItems : Int) :
    ∀ item ∈ (pruneCatalog catalog maxItems).2,
      item.id ∉ catalog.favorites.map (fun fav => fav.id) := by
  intro item hmem hfav
  simp only [pruneCatalog] at hmem
  rcases pruneLoop_removed (catalog.favorites.map (fun i => i.id))
      ((max 1 maxItems).toNat) catalog.feed [] item hmem with h | h
  · simp at h
  · exact absurd hfav (by simpa using h)

/-- A pool is unique by id when no two entries share an id. -/
def UniqueById (l : List CachedImage) : Prop :=
  (l.map (fun a => a.id)).Nodup

instance (l : List CachedImage) : Decidable (UniqueById l) := by
  unfold UniqueById
  infer_instance

/-- C7: every Catalog Store operation preserves uniqueness of ids in both
pools; `mergeFeed` and `addFavorite` establish it outright on the pool
they rebuild. -/
theorem catalogOps_preserve_uniqueById (catalog : Catalog) (fresh : List CachedImage)
    (item : CachedImage) (id : String) (maxItems : Int)
    (hfeed : UniqueById catalog.feed) (hfav : UniqueById catalog.favorites) :
    (UniqueById (mergeFeed catalog fresh).feed ∧
      UniqueById (mergeFeed catalog fresh).favorites) ∧
    (UniqueById (addFavorite catalog item).feed ∧
      UniqueById (addFavorite catalog item).favorites) ∧
    (UniqueById (removeFavorite catalog id).feed ∧
      UniqueById (removeFavorite catalog id).favorites) ∧
    (UniqueById (pruneCatalog catalog maxItems).1.feed ∧
      UniqueById (pruneCatalog catalog maxItems).1.favorites) := by
  refine ⟨⟨dedupeGo_nodup _ _, hfav⟩, ⟨hfeed, dedupeGo_nodup _ _⟩, ⟨hfeed, ?_⟩, ?_, hfav⟩
  · exact List.Nodup.sublist ((List.filter_sublist _).map _) hfav
  · exact List.Nodup.sublist ((pruneLoop_sublist _ _ _ _).map _) hfeed

/-- C2 (amended): pruning is a no-op when the feed is within `maxItems`;
otherwise the pruned feed is within `max 1 maxItems` (the code floors the
budget at one) unless every remaining feed item is favorited. -/
theorem pruneCatalog_budget_amended (catalog : Catalog) (maxItems : Int) :
    ((catalog.feed.length : Int) ≤ maxItems →
      pruneCatalog catalog maxItems = (catalog, [])) ∧
    (((pruneCatalog catalog maxItems).1.feed.length : Int) ≤ max 1 maxItems ∨
      ∀ item ∈ (pruneCatalog catalog maxItems).1.feed,
        item.id ∈ catalog.favorites.map (fun fav => fav.id)) := by
  constructor
  · intro hle
    have hkeep : catalog.feed.length ≤ (max 1 maxItems).toNat := by
      rcases max_choice 1 maxItems with h | h <;> omega
    simp only [pruneCatalog]
    rw [pruneLoop_noop hkeep]
  · rcases pruneLoop_post (catalog.favorites.map (fun item => item.id))
        ((max 1 maxItems).toNat) catalog.feed [] with h | h
    · left
      simp only [pruneCatalog]
      have h1 : (1:Int) ≤ max 1 maxItems := le_max_left _ _
      omega
    · right
      intro item hmem
      simp only [pruneCatalog] at hmem
      simpa using h item hmem

/-- C10: pruning floors its budget at one item — a non-empty feed stays
non-empty for every `maxItems`, including zero and negative values. -/
theorem pruneCatalog_keeps_last_item (catalog : Catalog) (maxItems : Int)
    (hne : catalog.feed ≠ []) : (pruneCatalog catalog maxItems).1.feed ≠ [] := by
  simp only [pruneCatalog]
  exact pruneLoop_nonempty _
    (by rcases max_choice 1 maxItems with h | h <;> omega) _ _ hne

/-- A concrete feed entry used in counterexamples and witnesses. -/
def imgA : CachedImage := ⟨"a", "urlA", "pathA", [], 0⟩

/-- A second concrete feed entry used in counterexamples and witnesses. -/
def imgB : CachedImage := ⟨"b", "urlB", "pathB", [], 0⟩

/-- A one-item, no-favorites catalog. -/
def cexCatalogC2 : Catalog := { feed := [imgA], favorites := [] }

/-- C2 counterexample: with `maxItems = 0` the single non-favorited feed
item survives pruning, so the feed stays over the claimed `maxItems`
budget even though no excess item is favorited. -/
theorem pruneCatalog_budget_counterexample :
    (0:Int) < (cexCatalogC2.feed.length : Int) ∧
    ¬ (((pruneCatalog cexCatalogC2 0).1.feed.length : Int) ≤ 0) ∧
    (∀ item ∈ (pruneCatalog cexCatalogC2 0).1.feed,
      item.id ∉ cexCatalogC2.favorites.map (fun fav => fav.id)) := by
  have hp : pruneCatalog cexCatalogC2 0 = (cexCatalogC2, []) := by
    simp only [pruneCatalog]
    rw [pruneLoop_noop (by decide)]
  rw [hp]
  decide

/-- A two-item, no-favorites catalog. -/
def cexCatalogC5 : Catalog := { feed := [imgA, imgB], favorites := [] }

theorem pruneCatalog_cexC5_eval :
    pruneCatalog cexCatalogC5 1 = ({ cexCatalogC5 with feed := [imgA] }, [imgB]) := by
  have hlen1 : cexCatalogC5.feed.length > (max 1 (1:Int)).toNat := by decide
  have hsome1 : lastIndexOfFalse (cexCatalogC5.feed.map
      (fun item => (cexCatalogC5.favorites.map (fun item => item.id)).contains item.id)) =
      some 1 := by decide
  have hle1 : ¬ (cexCatalogC5.feed.eraseIdx 1).length > (max 1 (1:Int)).toNat := by decide
  simp only [pruneCatalog]
  rw [pruneLoop_of_some hlen1 hsome1, pruneLoop_of_le hle1]
  rfl

/-- C5 witness: the theorem applied at a catalog where pruning really does
remove an item. -/
theorem pruneCatalog_never_removes_favorites_witness :
    imgB ∈ (pruneCatalog cexCatalogC5 1).2 ∧
      imgB.id ∉ cexCatalogC5.favorites.map (fun fav => fav.id) := by
  have hmem : imgB ∈ (pruneCatalog cexCatalogC5 1).2 := by
    rw [pruneCatalog_cexC5_eval]
    decide
  exact ⟨hmem, pruneCatalog_never_removes_favorites cexCatalogC5 1 imgB hmem⟩

/-- A one-item catalog for the C10 witness. -/
def catC10 : Catalog := { feed := [imgB], favorites := [] }

/-- C10 witness: the theorem applied at a one-item feed with a zero
budget. -/
theorem pruneCatalog_keeps_last_item_witness :
    catC10.feed ≠ [] ∧ (pruneCatalog catC10 0).1.feed ≠ [] :=
  ⟨by decide, pruneCatalog_keeps_last_item catC10 0 (by decide)⟩

/-- A catalog for the C2 witness. -/
def catC2w : Catalog := { feed := [imgA, imgB], favorites := [imgB] }

/-- C2 witness: the amended theorem applied at a concrete catalog and
budget. -/
theorem pruneCatalog_budget_amended_witness :
    ((catC2w.feed.length : Int) ≤ 5 → pruneCatalog catC2w 5 = (catC2w, [])) ∧
    (((pruneCatalog catC2w 5).1.feed.length : Int) ≤ max 1 5 ∨
      ∀ item ∈ (pruneCatalog catC2w 5).1.feed,
        item.id ∈ catC2w.favorites.map (fun fav => fav.id)) :=
  pruneCatalog_budget_amended catC2w 5

/-- A catalog with unique pools for the C7 witness. -/
def catC7 : Catalog := { feed := [imgA], favorites := [imgB] }

/-- C7 witness: the preservation theorem applied at a concrete catalog. -/
theorem catalogOps_preserve_uniqueById_witness :
    (UniqueById (mergeFeed catC7 [imgB]).feed ∧
      UniqueById (mergeFeed catC7 [imgB]).favorites) ∧
    (UniqueById (addFavorite catC7 imgA).feed ∧
      UniqueById (addFavorite catC7 imgA).favorites) ∧
    (UniqueById (removeFavorite catC7 "b").feed ∧
      UniqueById (removeFavorite catC7 "b").favorites) ∧
    (UniqueById (pruneCatalog catC7 3).1.feed ∧
      UniqueById (pruneCatalog catC7 3).1.favorites) :=
  catalogOps_preserve_uniqueById catC7 [imgB] imgA "b" 3 (by decide) (by decide)

/-- The whitespace characters removed by `value.trim()` in JS. -/
def isJsWhitespace (c : Char) : Bool :=
  c.toNat ∈ [9, 10, 11, 12, 13, 32, 160, 5760, 8192, 8193, 8194, 8195, 8196,
    8197, 8198, 8199, 8200, 8201, 8202, 8232, 8233, 8239, 8287, 12288, 65279]

/-- `value.trim()` on a JS string, as a list of characters. -/
def jsTrim (s : List Char) : List Char :=
  ((s.dropWhile isJsWhitespace).reverse.dropWhile isJsWhitespace).reverse

/-- The regex class `\d`. -/
def isAsciiDigit (c : Char) : Bool :=
  decide ('0' ≤ c) && decide (c ≤ '9')

/-- Numeric value of a decimal digit character (`+match[i]` on a digit
group). -/
def digitVal (c : Char) : Nat := c.toNat - 48

/-- The anchored regex `([01]?\d|2[0-3]):([0-5]\d)` of `parseRefreshTime`
in `scheduler.ts`, spelled out: a full match consumes either one digit or
a valid two-digit hour, then a colon, then a two-digit minute, with
nothing left over, so the trimmed input must have exactly 4 or 5
characters of the shapes below. -/
def matchRefreshTime : List Char → Option (Nat × Nat)
  | [d1, sep, m1, m2] =>
    if sep = ':' ∧ isAsciiDigit d1 = true ∧ '0' ≤ m1 ∧ m1 ≤ '5' ∧ isAsciiDigit m2 = true then
      some (digitVal d1, 10 * digitVal m1 + digitVal m2)
    else none
  | [d1, d2, sep, m1, m2] =>
    if sep = ':' ∧
        ((d1 = '0' ∨ d1 = '1') ∧ isAsciiDigit d2 = true ∨
          d1 = '2' ∧ '0' ≤ d2 ∧ d2 ≤ '3') ∧
        '0' ≤ m1 ∧ m1 ≤ '5' ∧ isAsciiDigit m2 = true then
      some (10 * digitVal d1 + digitVal d2, 10 * digitVal m1 + digitVal m2)
    else none
  | _ => none

/-- `parseRefreshTime` from `scheduler.ts`: trim, then match the anchored
`H:mm`/`HH:mm` regex, returning hour and minute. -/
def parseRefreshTime (value : List Char) : Option (Nat × Nat) :=
  matchRefreshTime (jsTrim value)

theorem char_le_iff_toNat {c d : Char} : c ≤ d ↔ c.toNat ≤ d.toNat := by
  rw [Char.le_def, UInt32.le_def, BitVec.le_def]
  exact Iff.rfl

/-- The decimal digit character for `n ≤ 9`. -/
def renderDigit (n : Nat) : Char := Char.ofNat (48 + n)

/-- Two-digit decimal rendering, for minutes and two-digit hours. -/
def twoDigits (n : Nat) : List Char := [renderDigit (n / 10), renderDigit (n % 10)]

/-- Follows the spec's words: `s` is "of the form H:mm or HH:mm with hour
0-23 and minute 00-59", rendering hour `h` and minute `m`. -/
def timeForm (s : List Char) (h m : Nat) : Prop :=
  m ≤ 59 ∧
    ((h ≤ 9 ∧ s = renderDigit h :: ':' :: twoDigits m) ∨
      (h ≤ 23 ∧ s = twoDigits h ++ ':' :: twoDigits m))

theorem isAsciiDigit_toNat {c : Char} (h : isAsciiDigit c = true) :
    48 ≤ c.toNat ∧ c.toNat ≤ 57 := by
  unfold isAsciiDigit at h
  simp only [Bool.and_eq_true, decide_eq_true_eq] at h
  exact ⟨char_le_iff_toNat.1 h.1, char_le_iff_toNat.1 h.2⟩

theorem digitVal_le9 {c : Char} (h : isAsciiDigit c = true) : digitVal c ≤ 9 := by
  have := isAsciiDigit_toNat h
  unfold digitVal
  omega

theorem isAsciiDigit_of_le {c u : Char} (h0 : '0' ≤ c) (hu : c ≤ u) (hu9 : u ≤ '9') :
    isAsciiDigit c = true := by
  unfold isAsciiDigit
  simp only [Bool.and_eq_true, decide_eq_true_eq]
  exact ⟨h0, le_trans hu hu9⟩

theorem digitVal_le_of_le5 {c : Char} (h0 : '0' ≤ c) (h5 : c ≤ '5') : digitVal c ≤ 5 := by
  have h1 := char_le_iff_toNat.1 h0
  have h2 := char_le_iff_toNat.1 h5
  unfold digitVal
  have e0 : ('0' : Char).toNat = 48 := by decide
  have e5 : ('5' : Char).toNat = 53 := by decide
  omega

theorem digitVal_le_of_le3 {c : Char} (h0 : '0' ≤ c) (h3 : c ≤ '3') : digitVal c ≤ 3 := by
  have h1 := char_le_iff_toNat.1 h0
  have h2 := char_le_iff_toNat.1 h3
  unfold digitVal
  have e0 : ('0' : Char).toNat = 48 := by decide
  have e3 : ('3' : Char).toNat = 51 := by decide
  omega

theorem renderDigit_digitVal {c : Char} (h : isAsciiDigit c = true) :
    renderDigit (digitVal c) = c := by
  have hb := isAsciiDigit_toNat h
  unfold renderDigit digitVal
  have h48 : 48 + (c.toNat - 48) = c.toNat := by omega
  rw [h48, Char.ofNat_toNat]

theorem renderDigit_isDigit {n : Nat} (h : n ≤ 9) : isAsciiDigit (renderDigit n) = true := by
  interval_cases n <;> decide

theorem digitVal_renderDigit {n : Nat} (h : n ≤ 9) : digitVal (renderDigit n) = n := by
  interval_cases n <;> decide

theorem renderDigit_between5 {n : Nat} (h : n ≤ 5) :
    '0' ≤ renderDigit n ∧ renderDigit n ≤ '5' := by
  interval_cases n <;> exact ⟨by decide, by decide⟩

theorem renderDigit_between3 {n : Nat} (h : n ≤ 3) :
    '0' ≤ renderDigit n ∧ renderDigit n ≤ '3' := by
  interval_cases n <;> exact ⟨by decide, by decide⟩

theorem timeForm_of_digits4 {d1 m1 m2 : Char} (hd1 : isAsciiDigit d1 = true)
    (hm1 : isAsciiDigit m1 = true) (hm2 : isAsciiDigit m2 = true)
    (hm15 : digitVal m1 ≤ 5) :
    timeForm [d1, ':', m1, m2] (digitVal d1) (10 * digitVal m1 + digitVal m2) := by
  have h1 := digitVal_le9 hd1
  have h4 := digitVal_le9 hm2
  refine ⟨by omega, Or.inl ⟨h1, ?_⟩⟩
  have e3 : (10 * digitVal m1 + digitVal m2) / 10 = digitVal m1 := by omega
  have e4 : (10 * digitVal m1 + digitVal m2) % 10 = digitVal m2 := by omega
  simp only [twoDigits, e3, e4, renderDigit_digitVal hd1,
    renderDigit_digitVal hm1, renderDigit_digitVal hm2]

theorem timeForm_of_digits5 {d1 d2 m1 m2 : Char} (hd1 : isAsciiDigit d1 = true)
    (hd2 : isAsciiDigit d2 = true) (hm1 : isAsciiDigit m1 = true)
    (hm2 : isAsciiDigit m2 = true) (hm15 : digitVal m1 ≤ 5)
    (hh23 : 10 * digitVal d1 + digitVal d2 ≤ 23) :
    timeForm [d1, d2, ':', m1, m2] (10 * digitVal d1 + digitVal d2)
      (10 * digitVal m1 + digitVal m2) := by
  have h2 := digitVal_le9 hd2
  have h4 := digitVal_le9 hm2
  refine ⟨by omega, Or.inr ⟨hh23, ?_⟩⟩
  have e1 : (10 * digitVal d1 + digitVal d2) / 10 = digitVal d1 := by omega
  have e2 : (10 * digitVal d1 + digitVal d2) % 10 = digitVal d2 := by omega
  have e3 : (10 * digitVal m1 + digitVal m2) / 10 = digitVal m1 := by omega
  have e4 : (10 * digitVal m1 + digitVal m2) % 10 = digitVal m2 := by omega
  simp only [twoDigits, e1, e2, e3, e4, renderDigit_digitVal hd1, renderDigit_digitVal hd2,
    renderDigit_digitVal hm1, renderDigit_digitVal hm2]
  rfl

theorem matchRefreshTime_iff (t : List Char) (hr mi : Nat) :
    matchRefreshTime t = some (hr, mi) ↔ timeForm t hr mi := by
  constructor
  · intro hp
    unfold matchRefreshTime at hp
    split at hp
    · rename_i d1 sep m1 m2
      split at hp
      · rename_i hcond
        obtain ⟨hsep, hd1, h0m1, h5m1, hm2⟩ := hcond
        simp only [Option.some.injEq, Prod.mk.injEq] at hp
        obtain ⟨hhr, hmi⟩ := hp
        subst hsep
        rw [← hhr, ← hmi]
        exact timeForm_of_digits4 hd1 (isAsciiDigit_of_le h0m1 h5m1 (by decide)) hm2
          (digitVal_le_of_le5 h0m1 h5m1)
      · cases hp
    · rename_i d1 d2 sep m1 m2
      split at hp
      · rename_i hcond
        obtain ⟨hsep, hhour, h0m1, h5m1, hm2⟩ := hcond
        simp only [Option.some.injEq, Prod.mk.injEq] at hp
        obtain ⟨hhr, hmi⟩ := hp
        subst hsep
        rw [← hhr, ← hmi]
        have hm1 : isAsciiDigit m1 = true := isAsciiDigit_of_le h0m1 h5m1 (by decide)
        have hm15 : digitVal m1 ≤ 5 := digitVal_le_of_le5 h0m1 h5m1
        rcases hhour with ⟨hd1, hd2⟩ | ⟨hd1, h0d2, h3d2⟩
        · have hd2v := digitVal_le9 hd2
          rcases hd1 with rfl | rfl
          · have e : digitVal '0' = 0 := by decide
            exact timeForm_of_digits5 (by decide) hd2 hm1 hm2 hm15 (by omega)
          · have e : digitVal '1' = 1 := by decide
            exact timeForm_of_digits5 (by decide) hd2 hm1 hm2 hm15 (by omega)
        · subst hd1
          have hd2 : isAsciiDigit d2 = true := isAsciiDigit_of_le h0d2 h3d2 (by decide)
          have hd2v := digitVal_le_of_le3 h0d2 h3d2
          have e : digitVal '2' = 2 := by decide
          exact timeForm_of_digits5 (by decide) hd2 hm1 hm2 hm15 (by omega)
      · cases hp
    · cases hp
  · rintro ⟨hm59, ⟨hh9, hs⟩ | ⟨hh23, hs⟩⟩
    · subst hs
      simp only [twoDigits]
      simp only [matchRefreshTime]
      rw [if_pos ⟨trivial, renderDigit_isDigit hh9, (renderDigit_between5 (by omega)).1,
        (renderDigit_between5 (by omega)).2, renderDigit_isDigit (by omega)⟩]
      simp only [Option.some.injEq, Prod.mk.injEq]
      rw [digitVal_renderDigit hh9, digitVal_renderDigit (by omega : mi / 10 ≤ 9),
        digitVal_renderDigit (by omega : mi % 10 ≤ 9)]
      exact ⟨rfl, by omega⟩
    · subst hs
      simp only [twoDigits, List.cons_append, List.nil_append]
      simp only [matchRefreshTime]
      have hhour : (renderDigit (hr / 10) = '0' ∨ renderDigit (hr / 10) = '1') ∧
          isAsciiDigit (renderDigit (hr % 10)) = true ∨
          renderDigit (hr / 10) = '2' ∧ '0' ≤ renderDigit (hr % 10) ∧
            renderDigit (hr % 10) ≤ '3' := by
        by_cases h20 : hr ≤ 19
        · left
          refine ⟨?_, renderDigit_isDigit (by omega)⟩
          have : hr / 10 = 0 ∨ hr / 10 = 1 := by omega
          rcases this with e | e <;> rw [e]
          · exact Or.inl (by decide)
          · exact Or.inr (by decide)
        · right
          have e : hr / 10 = 2 := by omega
          have e2 : hr % 10 ≤ 3 := by omega
          exact ⟨by rw [e]; decide, (renderDigit_between3 e2).1, (renderDigit_between3 e2).2⟩
      rw [if_pos ⟨trivial, hhour, (renderDigit_between5 (by omega)).1,
        (renderDigit_between5 (by omega)).2, renderDigit_isDigit (by omega)⟩]
      simp only [Option.some.injEq, Prod.mk.injEq]
      rw [digitVal_renderDigit (by omega : hr / 10 ≤ 9),
        digitVal_renderDigit (by omega : hr % 10 ≤ 9),
        digitVal_renderDigit (by omega : mi / 10 ≤ 9),
        digitVal_renderDigit (by omega : mi % 10 ≤ 9)]
      exact ⟨by omega, by omega⟩

/-- C6 (amended): `parseRefreshTime` returns `(h, m)` exactly when the
trimmed input is of the form `H:mm` or `HH:mm` with hour `h ≤ 23` and
minute `m ≤ 59`; on every other input it returns `none`.  (The original
claim, quantified over untrimmed strings, fails: see the trim
counterexample.) -/
theorem parseRefreshTime_roundtrip_amended (value : List Char) (hr mi : Nat) :
    parseRefreshTime value = some (hr, mi) ↔ timeForm (jsTrim value) hr mi := by
  unfold parseRefreshTime
  exact matchRefreshTime_iff _ hr mi

/-- C6 counterexample: `" 9:30"` is not of the `H:mm`/`HH:mm` form (it
carries a leading space), yet `parseRefreshTime` does not return `none`
for it, because the code trims before matching. -/
theorem parseRefreshTime_trim_counterexample :
    parseRefreshTime [' ', '9', ':', '3', '0'] = some (9, 30) ∧
      ∀ hr mi, ¬ timeForm [' ', '9', ':', '3', '0'] hr mi := by
  constructor
  · decide
  · rintro hr mi ⟨hm59, ⟨hh9, hs⟩ | ⟨hh23, hs⟩⟩
    · simp [twoDigits] at hs
    · simp only [twoDigits, List.cons_append, List.nil_append, List.cons.injEq] at hs
      obtain ⟨h1, -⟩ := hs
      have hq : hr / 10 = 0 ∨ hr / 10 = 1 ∨ hr / 10 = 2 := by omega
      rcases hq with e | e | e <;> rw [e] at h1 <;> exact absurd h1 (by decide)

/-- C6 witness: the amended equivalence applied at the concrete string
`"09:30"`. -/
theorem parseRefreshTime_roundtrip_amended_witness :
    parseRefreshTime ['0', '9', ':', '3', '0'] = some (9, 30) :=
  (parseRefreshTime_roundtrip_amended ['0', '9', ':', '3', '0'] 9 30).mpr
    (by refine ⟨by omega, Or.inr ⟨by omega, ?_⟩⟩; decide)

/-- An HTTP response as `downloadImage` observes it: `ok`, `status`, and
the `content-type` header. -/
structure HttpResponse where
  ok : Bool
  status : Nat
  contentType : Option String
deriving Repr

/-- The value returned by `downloadImage`. -/
structure CacheResult where
  id : String
  localPath : String
deriving DecidableEq, Repr

/-- The observable outcome of one `downloadImage` call: the returned (or
thrown) value, the filesystem afterwards (as the set of existing paths),
and whether the call issued the network request and wrote the file. -/
structure DownloadOutcome where
  result : Except String CacheResult
  fs : List String
  fetchPerformed : Bool
  wroteFile : Bool
deriving Repr

/-- `sub.includes(pat)` on JS strings. -/
def strIncludes (s sub : String) : Bool := decide (sub.toList <:+: s.toList)

/-- `toExt` from `cache.ts`: take the URL path extension when it is a
recognized image extension, else map the content type, else `".jpg"`.
`urlPathExt` stands for `extname(new URL(url).pathname).toLowerCase()`,
whose URL-syntax parsing is outside this model. -/
def toExt (urlPathExt : String → String) (url : String) (contentType : Option String) : String :=
  let ext := urlPathExt url
  if ext ∈ [".png", ".jpg", ".jpeg", ".webp", ".gif", ".bmp", ".svg"] then ext
  else
    match contentType with
    | none => ".jpg"
    | some ct =>
      if strIncludes ct "png" then ".png"
      else if strIncludes ct "webp" then ".webp"
      else if strIncludes ct "gif" then ".gif"
      else if strIncludes ct "bmp" then ".bmp"
      else if strIncludes ct "svg" then ".svg"
      else ".jpg"

/-- `target.replace(/\\/g, "/")` from `cache.ts`. -/
def slashify (s : String) : String :=
  String.map (fun c => if c = '\\' then '/' else c) s

/-- `s.startsWith(pre)` on JS strings, as a character-prefix test. -/
def strStartsWith (s pre : String) : Bool := pre.toList.isPrefixOf s.toList

/-- The tail of `downloadImage` after the response checks: compute the id
and target path; only when no file exists at the target are the body read
and the file write performed. -/
def downloadBody (hashText urlPathExt : String → String) (url dir : String)
    (fs : List String) (contentType : Option String) : DownloadOutcome :=
  let id := hashText url
  let ext := toExt urlPathExt url contentType
  let target := dir ++ "/" ++ id ++ ext
  if target ∈ fs then
    { result := Except.ok ⟨id, slashify target⟩, fs := fs,
      fetchPerformed := true, wroteFile := false }
  else
    { result := Except.ok ⟨id, slashify target⟩, fs := target :: fs,
      fetchPerformed := true, wroteFile := true }

/-- `downloadImage` from `cache.ts`.  `hashText` abstracts the SHA-256
hex digest of the URL (a fixed function of the URL); `net` maps a URL to
its response; `fs` is the set of existing file paths.  The code issues
`fetch(url)` unconditionally first — the `existsSync` check only guards
reading the body and writing the file — so `fetchPerformed` is `true` on
every path. -/
def downloadImage (hashText urlPathExt : String → String)
    (net : String → HttpResponse) (url dir : String) (fs : List String) : DownloadOutcome :=
  let response := net url
  if response.ok = false then
    { result := Except.error ("Image request failed (" ++ toString response.status ++ ")"),
      fs := fs, fetchPerformed := true, wroteFile := false }
  else
    match response.contentType with
    | some ct =>
      if !(strStartsWith ct "image/") then
        { result := Except.error ("Unsupported content type: " ++ ct),
          fs := fs, fetchPerformed := true, wroteFile := false }
      else downloadBody hashText urlPathExt url dir fs response.contentType
    | none => downloadBody hashText urlPathExt url dir fs response.contentType

theorem downloadImage_eq_body (hashText urlPathExt : String → String)
    (net : String → HttpResponse) (url dir : String) (fs : List String)
    (hok : (net url).ok = true)
    (hct : ∀ ct, (net url).contentType = some ct → strStartsWith ct "image/" = true) :
    downloadImage hashText urlPathExt net url dir fs =
      downloadBody hashText urlPathExt url dir fs (net url).contentType := by
  unfold downloadImage
  rw [if_neg (by simp [hok])]
  cases hx : (net url).contentType with
  | none => rfl
  | some ct =>
    simp only [hct ct hx, Bool.not_true, Bool.false_eq_true, if_false]

theorem downloadBody_hit (hashText urlPathExt : String → String) (url dir : String)
    (fs : List String) (ct : Option String)
    (hmem : dir ++ "/" ++ hashText url ++ toExt urlPathExt url ct ∈ fs) :
    downloadBody hashText urlPathExt url dir fs ct =
      { result := Except.ok ⟨hashText url,
          slashify (dir ++ "/" ++ hashText url ++ toExt urlPathExt url ct)⟩,
        fs := fs, fetchPerformed := true, wroteFile := false } := by
  simp only [downloadBody]
  rw [if_pos hmem]

theorem downloadBody_miss (hashText urlPathExt : String → String) (url dir : String)
    (fs : List String) (ct : Option String)
    (hmem : dir ++ "/" ++ hashText url ++ toExt urlPathExt url ct ∉ fs) :
    downloadBody hashText urlPathExt url dir fs ct =
      { result := Except.ok ⟨hashText url,
          slashify (dir ++ "/" ++ hashText url ++ toExt urlPathExt url ct)⟩,
        fs := (dir ++ "/" ++ hashText url ++ toExt urlPathExt url ct) :: fs,
        fetchPerformed := true, wroteFile := true } := by
  simp only [downloadBody]
  rw [if_neg hmem]

theorem downloadBody_twice (hashText urlPathExt : String → String) (url dir : String)
    (fs : List String) (ct : Option String) :
    ∃ r, (downloadBody hashText urlPathExt url dir fs ct).result = Except.ok r ∧
      r.id = hashText url ∧
      (downloadBody hashText urlPathExt url dir
          (downloadBody hashText urlPathExt url dir fs ct).fs ct).result = Except.ok r ∧
      (downloadBody hashText urlPathExt url dir
          (downloadBody hashText urlPathExt url dir fs ct).fs ct).wroteFile = false ∧
      (downloadBody hashText urlPathExt url dir
          (downloadBody hashText urlPathExt url dir fs ct).fs ct).fs =
        (downloadBody hashText urlPathExt url dir fs ct).fs ∧
      (downloadBody hashText urlPathExt url dir
          (downloadBody hashText urlPathExt url dir fs ct).fs ct).fetchPerformed = true := by
  by_cases hmem : dir ++ "/" ++ hashText url ++ toExt urlPathExt url ct ∈ fs
  · rw [downloadBody_hit hashText urlPathExt url dir fs ct hmem]
    dsimp only
    rw [downloadBody_hit hashText urlPathExt url dir fs ct hmem]
    exact ⟨_, rfl, rfl, rfl, rfl, rfl, rfl⟩
  · rw [downloadBody_miss hashText urlPathExt url dir fs ct hmem]
    dsimp only
    rw [downloadBody_hit hashText urlPathExt url dir _ ct (List.mem_cons_self _ _)]
    exact ⟨_, rfl, rfl, rfl, rfl, rfl, rfl⟩

/-- C1 (amended): two `downloadImage` calls with the same URL return the
same id (the hash of the URL) and path, and the body write happens at
most once — when the file already exists the second call writes nothing
and leaves the filesystem unchanged — but the network request itself is
issued by every call, existing file or not. -/
theorem downloadImage_idempotent_amended (hashText urlPathExt : String → String)
    (net : String → HttpResponse) (url dir : String) (fs : List String)
    (hok : (net url).ok = true)
    (hct : ∀ ct, (net url).contentType = some ct → strStartsWith ct "image/" = true) :
    ∃ r, (downloadImage hashText urlPathExt net url dir fs).result = Except.ok r ∧
      r.id = hashText url ∧
      (downloadImage hashText urlPathExt net url dir
          (downloadImage hashText urlPathExt net url dir fs).fs).result = Except.ok r ∧
      (downloadImage hashText urlPathExt net url dir
          (downloadImage hashText urlPathExt net url dir fs).fs).wroteFile = false ∧
      (downloadImage hashText urlPathExt net url dir
          (downloadImage hashText urlPathExt net url dir fs).fs).fs =
        (downloadImage hashText urlPathExt net url dir fs).fs ∧
      (downloadImage hashText urlPathExt net url dir
          (downloadImage hashText urlPathExt net url dir fs).fs).fetchPerformed = true := by
  rw [downloadImage_eq_body hashText urlPathExt net url dir fs hok hct,
    downloadImage_eq_body hashText urlPathExt net url dir
      ((downloadBody hashText urlPathExt url dir fs (net url).contentType).fs) hok hct]
  exact downloadBody_twice hashText urlPathExt url dir fs (net url).contentType

/-- A constant hash standing in for the SHA-256 digest in concrete
examples. -/
def cexHash : String → String := fun _ => "h"

/-- A URL path extension oracle for concrete examples. -/
def cexPext : String → String := fun _ => ".png"

/-- A network that always answers 200 with an image content type. -/
def cexNet : String → HttpResponse :=
  fun _ => { ok := true, status := 200, contentType := some "image/png" }

/-- C1 counterexample: after the first call the file exists, yet the
second `downloadImage` call for the same URL still issues the network
request (`fetchPerformed = true`); only the body write is skipped.  The
claimed "the network fetch is skipped" fails on the code, which calls
`fetch(url)` before the `existsSync` check. -/
theorem downloadImage_refetch_counterexample :
    "d/h.png" ∈ (downloadImage cexHash cexPext cexNet "u" "d" []).fs ∧
    (downloadImage cexHash cexPext cexNet "u" "d"
        (downloadImage cexHash cexPext cexNet "u" "d" []).fs).fetchPerformed = true ∧
    (downloadImage cexHash cexPext cexNet "u" "d"
        (downloadImage cexHash cexPext cexNet "u" "d" []).fs).wroteFile = false := by
  decide

/-- C1 witness: the amended theorem at a concrete network and cache
directory. -/
theorem downloadImage_idempotent_amended_witness :
    ∃ r, (downloadImage cexHash cexPext cexNet "u2" "d2" []).result = Except.ok r ∧
      r.id = cexHash "u2" ∧
      (downloadImage cexHash cexPext cexNet "u2" "d2"
          (downloadImage cexHash cexPext cexNet "u2" "d2" []).fs).result = Except.ok r ∧
      (downloadImage cexHash cexPext cexNet "u2" "d2"
          (downloadImage cexHash cexPext cexNet "u2" "d2" []).fs).wroteFile = false ∧
      (downloadImage cexHash cexPext cexNet "u2" "d2"
          (downloadImage cexHash cexPext cexNet "u2" "d2" []).fs).fs =
        (downloadImage cexHash cexPext cexNet "u2" "d2" []).fs ∧
      (downloadImage cexHash cexPext cexNet "u2" "d2"
          (downloadImage cexHash cexPext cexNet "u2" "d2" []).fs).fetchPerformed = true :=
  downloadImage_idempotent_amended cexHash cexPext cexNet "u2" "d2" [] (by decide)
    (by
      intro ct h
      simp only [cexNet] at h
      cases h
      decide)

/-- A normalized search candidate from `client.ts`. -/
structure WallhavenCandidate where
  id : String
  imageUrl : String
  sourceUrl : String
deriving DecidableEq, Repr

/-- One sync run's environment as `syncNow` in `index.ts` observes it:
the guard flags, the Remote Search Client outcome, the per-candidate
download outcome (`none` models a per-item failure, whose image is
dropped from the fresh set), the settings limit and cache budget, the
clock, and the next scheduled instant that `scheduleNext` computes. -/
structure SyncEnv where
  hasContext : Bool
  syncRunning : Bool
  enabled : Bool
  searchResult : Except String (List WallhavenCandidate)
  download : WallhavenCandidate → Option CachedImage
  limit : Nat
  cacheMax : Int
  now : Nat
  nextRunAt : Nat

/-- `syncNow` from `index.ts`, as a transformation of the persisted
catalog: the catalog on disk after the run, with the run's boolean
result.  On the skip guard nothing is written; on search failure the
catalog is rewritten with `lastError` set and nothing else changed; on
success the fresh items are merged, the feed pruned, `lastSyncAt`
stamped and `lastError` cleared.  In every non-skipped run the `finally`
block's `scheduleNext` then stores `nextScheduledAt`. -/
def syncNow (env : SyncEnv) (persisted : Catalog) : Catalog × Bool :=
  if env.hasContext = false ∨ env.syncRunning = true ∨ env.enabled = false then
    (persisted, false)
  else
    match env.searchResult with
    | Except.error msg =>
      let c := { persisted with lastError := some msg }
      ({ c with nextScheduledAt := some env.nextRunAt }, false)
    | Except.ok candidates =>
      let target := candidates.take env.limit
      let fresh := target.filterMap env.download
      let merged := mergeFeed persisted fresh
      let pruned := pruneCatalog merged env.cacheMax
      let c := { pruned.1 with lastSyncAt := some env.now, lastError := none }
      ({ c with nextScheduledAt := some env.nextRunAt }, true)

/-- C3: when the Remote Search Client call fails during a sync run, the
persisted catalog keeps its feed, favorites and lastSyncAt unchanged,
records the error message as lastError, and the run stops reporting
failure — no partial catalog mutation. -/
theorem syncNow_search_failure_preserves_catalog (env : SyncEnv) (persisted : Catalog)
    (msg : String) (hctx : env.hasContext = true) (hrun : env.syncRunning = false)
    (hen : env.enabled = true) (hfail : env.searchResult = Except.error msg) :
    (syncNow env persisted).1.feed = persisted.feed ∧
    (syncNow env persisted).1.favorites = persisted.favorites ∧
    (syncNow env persisted).1.lastSyncAt = persisted.lastSyncAt ∧
    (syncNow env persisted).1.lastError = some msg ∧
    (syncNow env persisted).2 = false := by
  unfold syncNow
  rw [if_neg (by simp [hctx, hrun, hen]), hfail]
  exact ⟨rfl, rfl, rfl, rfl, rfl⟩

/-- A failing sync environment for the C3 witness. -/
def envC3 : SyncEnv :=
  { hasContext := true, syncRunning := false, enabled := true,
    searchResult := Except.error "Wallhaven API failed (500)",
    download := fun _ => none, limit := 20, cacheMax := 200,
    now := 1000, nextRunAt := 2000 }

/-- A populated catalog for the C3 witness. -/
def catC3 : Catalog := { feed := [imgA], favorites := [imgB], lastSyncAt := some 5 }

/-- C3 witness: the theorem applied at a concrete failing run. -/
theorem syncNow_search_failure_preserves_catalog_witness :
    (syncNow envC3 catC3).1.feed = catC3.feed ∧
    (syncNow envC3 catC3).1.favorites = catC3.favorites ∧
    (syncNow envC3 catC3).1.lastSyncAt = catC3.lastSyncAt ∧
    (syncNow envC3 catC3).1.lastError = some "Wallhaven API failed (500)" ∧
    (syncNow envC3 catC3).2 = false :=
  syncNow_search_failure_preserves_catalog envC3 catC3 "Wallhaven API failed (500)"
    rfl rfl rfl rfl

/-- `CollectionWallpaper` from `store.ts`. -/
structure CollectionWallpaper where
  id : String
  url : String
  preview : String
  sourceId : Option String
deriving DecidableEq, Repr, Inhabited

/-- `WallpaperCollection` from `store.ts`. -/
structure WallpaperCollection where
  id : String
  name : String
  wallpapers : List CollectionWallpaper
deriving DecidableEq, Repr

/-- `ActiveWallpaper` from `store.ts`. -/
structure ActiveWallpaper where
  source : String
  url : String
  wallhavenId : Option String
  appliedAt : String
deriving DecidableEq, Repr

/-- `ExtensionState` from `store.ts`: the persisted rotation state. -/
structure ExtensionState where
  collections : List WallpaperCollection
  activeWallpaper : Option ActiveWallpaper
  enabledCollectionId : Option String
  lastRotationDate : Option String
  pendingRotationCollectionId : Option String
deriving DecidableEq, Repr

/-- `initialState` from `store.ts`. -/
def initialExtensionState : ExtensionState :=
  { collections := [], activeWallpaper := none, enabledCollectionId := none,
    lastRotationDate := none, pendingRotationCollectionId := none }

/-- The three answers of the midnight prompt in `rotation.ts`. -/
inductive PromptChoice
  | applyNow
  | deferStartup
  | skipToday
deriving DecidableEq, Repr

/-- What one scheduler callback observes from the host: the local
calendar date (`localDate()`), the timestamp `applyWallpaper` stores,
whether the window is focused with visible editors, the prompt answer
(`none` models a dismissed prompt), and the random draw used to pick a
wallpaper (used modulo the collection size, as
`Math.floor(Math.random() * length)` always lands in `[0, length)`). -/
structure RotEnv where
  today : String
  nowIso : String
  isActive : Bool
  prompt : Option PromptChoice
  pick : Nat
deriving Repr

/-- One observed wallpaper rotation: the date it stamped, the applied
url, and whether it was the deferred-at-startup rotation. -/
structure RotEvent where
  date : String
  url : String
  startup : Bool
deriving DecidableEq, Repr

/-- `applyWallpaper` from `wallpaper.ts`, restricted to the state it
mutates: stores the new `ActiveWallpaper` record. -/
def applyWallpaper (s : ExtensionState) (url : String) (sourceId : Option String)
    (nowIso : String) : ExtensionState :=
  let aw : ActiveWallpaper :=
    { source := "collection", url := url, wallhavenId := sourceId, appliedAt := nowIso }
  { s with activeWallpaper := some aw }

/-- `DailyRotationScheduler.rotateFromCollection`: pick a random
wallpaper, apply it, stamp `lastRotationDate`; a no-op on an empty
collection. -/
def rotateFromCollection (env : RotEnv) (s : ExtensionState)
    (collection : WallpaperCollection) (startup : Bool) :
    ExtensionState × List RotEvent :=
  if collection.wallpapers.length = 0 then (s, [])
  else
    let index := env.pick % collection.wallpapers.length
    let selected := collection.wallpapers.getD index default
    let s1 := applyWallpaper s selected.url selected.sourceId env.nowIso
    let ev : RotEvent := { date := env.today, url := selected.url, startup := startup }
    ({ s1 with lastRotationDate := some env.today }, [ev])

/-- `findCollection` from `rotation.ts`. -/
def findCollection (s : ExtensionState) (collectionId : String) :
    Option WallpaperCollection :=
  s.collections.find? (fun collection => collection.id == collectionId)

/-- `DailyRotationScheduler.handleMidnight`: no-op when no collection is
enabled (a JS falsy check, so `null` and `""` both count), when today
already equals `lastRotationDate`, when the enabled collection is gone
or empty; otherwise prompt if the window is interactively active
(rotate / defer-to-startup / skip), or rotate immediately if not. -/
def handleMidnight (env : RotEnv) (s : ExtensionState) :
    ExtensionState × List RotEvent :=
  match s.enabledCollectionId with
  | none => (s, [])
  | some cid =>
    if cid == "" then (s, [])
    else if s.lastRotationDate = some env.today then (s, [])
    else
      match findCollection s cid with
      | none => (s, [])
      | some collection =>
        if collection.wallpapers.length = 0 then (s, [])
        else if env.isActive then
          match env.prompt with
          | some PromptChoice.applyNow => rotateFromCollection env s collection false
          | some PromptChoice.deferStartup =>
            ({ s with
                pendingRotationCollectionId := some collection.id,
                lastRotationDate := some env.today }, [])
          | _ => ({ s with lastRotationDate := some env.today }, [])
        else rotateFromCollection env s collection false

/-- `DailyRotationScheduler.initialize`'s persisted-state effect: when a
rotation was deferred (`pendingRotationCollectionId` truthy), rotate from
that collection if it still exists, then clear the pending marker.  The
timer arming by `schedule()` has no persisted-state effect. -/
def rotationStartup (env : RotEnv) (s : ExtensionState) :
    ExtensionState × List RotEvent :=
  match s.pendingRotationCollectionId with
  | none => (s, [])
  | some pcid =>
    if pcid == "" then (s, [])
    else
      let r :=
        match findCollection s pcid with
        | some collection => rotateFromCollection env s collection true
        | none => (s, [])
      ({ r.1 with pendingRotationCollectionId := none }, r.2)

/-- The `background.rotation.deferUntilStartup` command: store the
enabled collection as pending without touching `lastRotationDate`. -/
def deferUntilStartup (s : ExtensionState) : ExtensionState × List RotEvent :=
  match s.enabledCollectionId with
  | none => (s, [])
  | some cid =>
    if cid == "" then (s, [])
    else ({ s with pendingRotationCollectionId := some cid }, [])

/-- The `background.collections.enableDailyRotation` command:
`setEnabledCollection`, then clear the pending marker. -/
def enableDailyRotation (s : ExtensionState) (cid : String) :
    ExtensionState × List RotEvent :=
  ({ s with enabledCollectionId := some cid, pendingRotationCollectionId := none }, [])

/-- `StateStore.createCollection`. -/
def createCollection (s : ExtensionState) (id name : String) :
    ExtensionState × List RotEvent :=
  ({ s with collections := s.collections ++ [{ id := id, name := name, wallpapers := [] }] }, [])

/-- `StateStore.deleteCollection`. -/
def deleteCollection (s : ExtensionState) (cid : String) :
    ExtensionState × List RotEvent :=
  ({ s with
      collections := s.collections.filter (fun c => c.id ≠ cid),
      enabledCollectionId :=
        if s.enabledCollectionId = some cid then none else s.enabledCollectionId,
      pendingRotationCollectionId :=
        if s.pendingRotationCollectionId = some cid then none
        else s.pendingRotationCollectionId }, [])

/-- `StateStore.addWallpaper`: append to the collection unless one with
the same url is already there. -/
def addWallpaperOp (s : ExtensionState) (cid : String) (w : CollectionWallpaper) :
    ExtensionState × List RotEvent :=
  ({ s with collections := s.collections.map (fun c =>
      if c.id ≠ cid then c
      else if c.wallpapers.any (fun cur => cur.url == w.url) then c
      else { c with wallpapers := c.wallpapers ++ [w] }) }, [])

/-- `StateStore.removeWallpaper`. -/
def removeWallpaperOp (s : ExtensionState) (cid wid : String) :
    ExtensionState × List RotEvent :=
  ({ s with collections := s.collections.map (fun c =>
      if c.id = cid then { c with wallpapers := c.wallpapers.filter (fun w => w.id ≠ wid) }
      else c) }, [])

/-- A manual apply (the apply-collection command path): sets the active
wallpaper without stamping the rotation date. -/
def applyManualOp (s : ExtensionState) (url : String) (sourceId : Option String)
    (nowIso : String) : ExtensionState × List RotEvent :=
  (applyWallpaper s url sourceId nowIso, [])

/-- One scheduler or command operation of the rotation subsystem. -/
inductive RotOp
  | startup (env : RotEnv)
  | midnight (env : RotEnv)
  | deferCmd
  | enableRotation (cid : String)
  | createCol (id nm : String)
  | deleteCol (cid : String)
  | addWall (cid : String) (w : CollectionWallpaper)
  | removeWall (cid wid : String)
  | applyManual (url : String) (sourceId : Option String) (nowIso : String)

/-- Interpret one operation on the persisted state. -/
def stepOp : RotOp → ExtensionState → ExtensionState × List RotEvent
  | RotOp.startup env, s => rotationStartup env s
  | RotOp.midnight env, s => handleMidnight env s
  | RotOp.deferCmd, s => deferUntilStartup s
  | RotOp.enableRotation cid, s => enableDailyRotation s cid
  | RotOp.createCol id nm, s => createCollection s id nm
  | RotOp.deleteCol cid, s => deleteCollection s cid
  | RotOp.addWall cid w, s => addWallpaperOp s cid w
  | RotOp.removeWall cid wid, s => removeWallpaperOp s cid wid
  | RotOp.applyManual url sid iso, s => applyManualOp s url sid iso

/-- Run a list of operations, collecting the rotation events in order. -/
def runOps : List RotOp → ExtensionState → ExtensionState × List RotEvent
  | [], s => (s, [])
  | op :: rest, s =>
    let r := stepOp op s
    let r2 := runOps rest r.1
    (r2.1, r.2 ++ r2.2)

/-- C8: the day-boundary handler run with no enabled collection, or when
`lastRotationDate` already equals today's date, mutates nothing and
applies no wallpaper. -/
theorem handleMidnight_noop (env : RotEnv) (s : ExtensionState)
    (h : s.enabledCollectionId = none ∨ s.lastRotationDate = some env.today) :
    handleMidnight env s = (s, []) := by
  unfold handleMidnight
  rcases h with h | h
  · rw [h]
  · cases he : s.enabledCollectionId with
    | none => rfl
    | some cid =>
      by_cases hc : (cid == "") = true
      · simp only [hc, if_true]
      · simp only [hc, Bool.false_eq_true, if_false, h, if_true]

/-- An environment for the C8 witness. -/
def envC8 : RotEnv :=
  { today := "2026-01-01", nowIso := "t", isActive := false, prompt := none, pick := 0 }

/-- A state with no enabled collection for the C8 witness. -/
def stC8 : ExtensionState :=
  { initialExtensionState with lastRotationDate := some "2025-12-31" }

/-- C8 witness: the no-op theorem at a concrete state with no enabled
collection. -/
theorem handleMidnight_noop_witness : handleMidnight envC8 stC8 = (stC8, []) :=
  handleMidnight_noop envC8 stC8 (Or.inl rfl)

/-- Chronological order on `YYYY-MM-DD` date strings: lexicographic
character order (which on this format coincides with date order). -/
def dateLe (a b : String) : Prop := a.data ≤ b.data

theorem dateLe_antisymm {a b : String} (h1 : dateLe a b) (h2 : dateLe b a) : a = b := by
  unfold dateLe at h1 h2
  have h3 := le_antisymm h1 h2
  cases a; cases b
  simp only at h3
  rw [h3]

/-- The dates observed by the date-stamping operations, in op order. -/
def opDates : RotOp → List String
  | RotOp.startup env => [env.today]
  | RotOp.midnight env => [env.today]
  | _ => []

/-- All dates of a trace, in order. -/
def traceDates (ops : List RotOp) : List String := (ops.map opDates).flatten

/-- The dates of the rotations performed by the day-boundary handler
(deferred startup rotations excluded). -/
def midnightDates (evs : List RotEvent) : List String :=
  (evs.filter (fun e => !e.startup)).map (fun e => e.date)

theorem traceDates_cons (op : RotOp) (rest : List RotOp) :
    traceDates (op :: rest) = opDates op ++ traceDates rest := by
  simp [traceDates]

theorem midnightDates_append (a b : List RotEvent) :
    midnightDates (a ++ b) = midnightDates a ++ midnightDates b := by
  simp [midnightDates]

theorem midnightDates_of_startup {l : List RotEvent}
    (h : ∀ e ∈ l, e.startup = true) : midnightDates l = [] := by
  unfold midnightDates
  rw [List.filter_eq_nil_iff.2 (fun e he => by simp [h e he])]
  rfl

theorem mem_midnightDates {d : String} {l : List RotEvent} (hd : d ∈ midnightDates l) :
    ∃ e ∈ l, e.startup = false ∧ e.date = d := by
  unfold midnightDates at hd
  rcases List.mem_map.1 hd with ⟨e, he, hdate⟩
  rcases List.mem_filter.1 he with ⟨hmem, hst⟩
  exact ⟨e, hmem, by simpa using hst, hdate⟩

theorem rotateFromCollection_cases (env : RotEnv) (s : ExtensionState)
    (collection : WallpaperCollection) (st : Bool) :
    rotateFromCollection env s collection st = (s, []) ∨
    ((rotateFromCollection env s collection st).1.lastRotationDate = some env.today ∧
      ∃ u, (rotateFromCollection env s collection st).2 =
        [{ date := env.today, url := u, startup := st }]) := by
  unfold rotateFromCollection
  by_cases h : collection.wallpapers.length = 0
  · rw [if_pos h]
    exact Or.inl rfl
  · rw [if_neg h]
    exact Or.inr ⟨rfl, _, rfl⟩

theorem handleMidnight_cases (env : RotEnv) (s : ExtensionState) :
    handleMidnight env s = (s, []) ∨
    ((handleMidnight env s).1.lastRotationDate = some env.today ∧
      (handleMidnight env s).2 = []) ∨
    ((handleMidnight env s).1.lastRotationDate = some env.today ∧
      s.lastRotationDate ≠ some env.today ∧
      ∃ u, (handleMidnight env s).2 =
        [{ date := env.today, url := u, startup := false }]) := by
  unfold handleMidnight
  cases he : s.enabledCollectionId with
  | none => exact Or.inl rfl
  | some cid =>
    dsimp only
    by_cases hc : (cid == "") = true
    · rw [if_pos hc]
      exact Or.inl rfl
    · rw [if_neg hc]
      by_cases hd : s.lastRotationDate = some env.today
      · rw [if_pos hd]
        exact Or.inl rfl
      · rw [if_neg hd]
        cases hf : findCollection s cid with
        | none => exact Or.inl rfl
        | some collection =>
          dsimp only
          by_cases hlen : collection.wallpapers.length = 0
          · rw [if_pos hlen]
            exact Or.inl rfl
          · rw [if_neg hlen]
            by_cases hact : env.isActive = true
            · rw [if_pos hact]
              cases hp : env.prompt with
              | none => exact Or.inr (Or.inl ⟨rfl, rfl⟩)
              | some choice =>
                cases choice with
                | applyNow =>
                  rcases rotateFromCollection_cases env s collection false with hr | ⟨h1, u, h2⟩
                  · rw [hr]
                    exact Or.inl rfl
                  · exact Or.inr (Or.inr ⟨h1, hd, u, h2⟩)
                | deferStartup => exact Or.inr (Or.inl ⟨rfl, rfl⟩)
                | skipToday => exact Or.inr (Or.inl ⟨rfl, rfl⟩)
            · rw [if_neg hact]
              rcases rotateFromCollection_cases env s collection false with hr | ⟨h1, u, h2⟩
              · rw [hr]
                exact Or.inl rfl
              · exact Or.inr (Or.inr ⟨h1, hd, u, h2⟩)

theorem rotationStartup_cases (env : RotEnv) (s : ExtensionState) :
    ((rotationStartup env s).1.lastRotationDate = s.lastRotationDate ∨
      (rotationStartup env s).1.lastRotationDate = some env.today) ∧
    ∀ e ∈ (rotationStartup env s).2, e.startup = true ∧ e.date = env.today := by
  unfold rotationStartup
  cases hp : s.pendingRotationCollectionId with
  | none => exact ⟨Or.inl rfl, by simp⟩
  | some pcid =>
    dsimp only
    by_cases hc : (pcid == "") = true
    · rw [if_pos hc]
      exact ⟨Or.inl rfl, by simp⟩
    · rw [if_neg hc]
      cases hf : findCollection s pcid with
      | none => exact ⟨Or.inl rfl, by simp⟩
      | some collection =>
        dsimp only
        rcases rotateFromCollection_cases env s collection true with hr | ⟨h1, u, h2⟩
        · rw [hr]
          exact ⟨Or.inl rfl, by simp⟩
        · refine ⟨Or.inr h1, ?_⟩
          rw [h2]
          intro e he
          rcases List.mem_singleton.1 he with rfl
          exact ⟨rfl, rfl⟩

theorem stepOp_spec (op : RotOp) (s : ExtensionState) :
    ((stepOp op s).1.lastRotationDate = s.lastRotationDate ∨
      ∃ t, opDates op = [t] ∧ (stepOp op s).1.lastRotationDate = some t) ∧
    (∀ e ∈ (stepOp op s).2, e.date ∈ opDates op) ∧
    (midnightDates (stepOp op s).2 = [] ∨
      ∃ t u, opDates op = [t] ∧
        (stepOp op s).2 = [{ date := t, url := u, startup := false }] ∧
        s.lastRotationDate ≠ some t ∧
        (stepOp op s).1.lastRotationDate = some t) := by
  cases op with
  | startup env =>
    dsimp only [stepOp, opDates]
    obtain ⟨hlast, hev⟩ := rotationStartup_cases env s
    refine ⟨?_, ?_, ?_⟩
    · rcases hlast with h | h
      · exact Or.inl h
      · exact Or.inr ⟨env.today, rfl, h⟩
    · intro e he
      rw [(hev e he).2]
      exact List.mem_singleton_self _
    · exact Or.inl (midnightDates_of_startup (fun e he => (hev e he).1))
  | midnight env =>
    dsimp only [stepOp, opDates]
    rcases handleMidnight_cases env s with hid | ⟨h1, h2⟩ | ⟨h1, hne, u, h2⟩
    · rw [hid]
      exact ⟨Or.inl rfl, fun e he => absurd he (List.not_mem_nil e), Or.inl rfl⟩
    · refine ⟨Or.inr ⟨env.today, rfl, h1⟩, ?_, Or.inl (by rw [h2]; rfl)⟩
      intro e he
      rw [h2] at he
      exact absurd he (List.not_mem_nil e)
    · refine ⟨Or.inr ⟨env.today, rfl, h1⟩, ?_,
        Or.inr ⟨env.today, u, rfl, h2, hne, h1⟩⟩
      intro e he
      rw [h2] at he
      rcases List.mem_singleton.1 he with rfl
      exact List.mem_singleton_self _
  | deferCmd =>
    dsimp only [stepOp, opDates]
    unfold deferUntilStartup
    cases hce : s.enabledCollectionId with
    | none => exact ⟨Or.inl rfl, fun e he => absurd he (List.not_mem_nil e), Or.inl rfl⟩
    | some cid =>
      dsimp only
      by_cases hc : (cid == "") = true
      · rw [if_pos hc]
        exact ⟨Or.inl rfl, fun e he => absurd he (List.not_mem_nil e), Or.inl rfl⟩
      · rw [if_neg hc]
        exact ⟨Or.inl rfl, fun e he => absurd he (List.not_mem_nil e), Or.inl rfl⟩
  | enableRotation cid =>
    exact ⟨Or.inl rfl, fun e he => absurd he (List.not_mem_nil e), Or.inl rfl⟩
  | createCol id nm =>
    exact ⟨Or.inl rfl, fun e he => absurd he (List.not_mem_nil e), Or.inl rfl⟩
  | deleteCol cid =>
    exact ⟨Or.inl rfl, fun e he => absurd he (List.not_mem_nil e), Or.inl rfl⟩
  | addWall cid w =>
    exact ⟨Or.inl rfl, fun e he => absurd he (List.not_mem_nil e), Or.inl rfl⟩
  | removeWall cid wid =>
    exact ⟨Or.inl rfl, fun e he => absurd he (List.not_mem_nil e), Or.inl rfl⟩
  | applyManual url sid iso =>
    exact ⟨Or.inl rfl, fun e he => absurd he (List.not_mem_nil e), Or.inl rfl⟩

theorem runOps_once_per_date (ops : List RotOp) : ∀ s : ExtensionState,
    (traceDates ops).Pairwise (fun a b => dateLe a b) →
    (∀ d, s.lastRotationDate = some d → ∀ t ∈ traceDates ops, dateLe d t) →
    (midnightDates (runOps ops s).2).Nodup ∧
    (∀ d, s.lastRotationDate = some d → d ∉ midnightDates (runOps ops s).2) ∧
    (∀ e ∈ (runOps ops s).2, e.date ∈ traceDates ops) := by
  induction ops with
  | nil =>
    intro s _ _
    exact ⟨List.nodup_nil, fun d _ h => absurd h (List.not_mem_nil d),
      fun e he => absurd he (List.not_mem_nil e)⟩
  | cons op rest ih =>
    intro s hmono hstate
    rw [traceDates_cons] at hmono hstate
    obtain ⟨hm1, hm2, hm12⟩ := List.pairwise_append.1 hmono
    obtain ⟨hlast, hevdate, hmid⟩ := stepOp_spec op s
    have hstate' : ∀ d, (stepOp op s).1.lastRotationDate = some d →
        ∀ t ∈ traceDates rest, dateLe d t := by
      intro d hd t ht
      rcases hlast with he | ⟨t₀, hop, he⟩
      · rw [he] at hd
        exact hstate d hd t (List.mem_append_right _ ht)
      · rw [he] at hd
        injection hd with hd
        subst hd
        exact hm12 t₀ (by rw [hop]; exact List.mem_singleton_self _) t ht
    obtain ⟨ihnd, ihnotin, ihdates⟩ := ih (stepOp op s).1 hm2 hstate'
    simp only [runOps]
    refine ⟨?_, ?_, ?_⟩
    · rw [midnightDates_append]
      rcases hmid with hnil | ⟨t, u, hop, hev, hne, hstamp⟩
      · rw [hnil, List.nil_append]
        exact ihnd
      · rw [hev]
        have hone : midnightDates [{ date := t, url := u, startup := false }] = [t] := rfl
        rw [hone, List.singleton_append]
        exact List.nodup_cons.2 ⟨ihnotin t hstamp, ihnd⟩
    · intro d hd hmem
      rw [midnightDates_append] at hmem
      rcases List.mem_append.1 hmem with h1 | h2
      · rcases hmid with hnil | ⟨t, u, hop, hev, hne, hstamp⟩
        · rw [hnil] at h1
          exact absurd h1 (List.not_mem_nil d)
        · rw [hev] at h1
          have hdt : d = t := List.mem_singleton.1 h1
          subst hdt
          exact hne hd
      · rcases hlast with he | ⟨t₀, hop, he⟩
        · exact ihnotin d (by rw [he]; exact hd) h2
        · have hd_le : dateLe d t₀ := hstate d hd t₀
            (List.mem_append_left _ (by rw [hop]; exact List.mem_singleton_self _))
          have hd_in_rest : d ∈ traceDates rest := by
            rcases mem_midnightDates h2 with ⟨e, he2, hst, hdate⟩
            rw [← hdate]
            exact ihdates e he2
          have ht₀_le : dateLe t₀ d := hm12 t₀
            (by rw [hop]; exact List.mem_singleton_self _) d hd_in_rest
          have hdd : d = t₀ := dateLe_antisymm hd_le ht₀_le
          subst hdd
          exact ihnotin d he h2
    · intro e he
      rw [traceDates_cons]
      rcases List.mem_append.1 he with h1 | h2
      · exact List.mem_append_left _ (hevdate e h1)
      · exact List.mem_append_right _ (ihdates e h2)

/-- C9 (amended): over every reachable operation sequence whose observed
local dates are chronologically nondecreasing, the day-boundary handler
performs at most one rotation per calendar date.  The deferred rotation
that `initialize` performs at startup from
`pendingRotationCollectionId` is exempt: it can re-apply a wallpaper on
a date that already rotated (see the counterexample), because it never
consults `lastRotationDate`. -/
theorem midnight_rotation_once_per_date (ops : List RotOp)
    (hmono : (traceDates ops).Pairwise (fun a b => dateLe a b)) :
    (midnightDates (runOps ops initialExtensionState).2).Nodup :=
  (runOps_once_per_date ops initialExtensionState hmono
    (fun d hd => by simp [initialExtensionState] at hd)).1

/-- A one-wallpaper collection payload for the C9 traces. -/
def wallC9 : CollectionWallpaper :=
  { id := "w1", url := "u1", preview := "p", sourceId := none }

/-- The midnight environment of the C9 traces. -/
def envC9a : RotEnv :=
  { today := "2026-01-01", nowIso := "t1", isActive := false, prompt := none, pick := 0 }

/-- The startup environment of the C9 traces, same calendar date. -/
def envC9b : RotEnv :=
  { today := "2026-01-01", nowIso := "t2", isActive := false, prompt := none, pick := 0 }

/-- Create a collection, fill and enable it, rotate at midnight, defer
via the command, then restart — all on 2026-01-01. -/
def opsC9 : List RotOp :=
  [RotOp.createCol "c1" "My", RotOp.addWall "c1" wallC9, RotOp.enableRotation "c1",
    RotOp.midnight envC9a, RotOp.deferCmd, RotOp.startup envC9b]

/-- C9 counterexample: on this reachable same-day trace the scheduler
applies a wallpaper rotation twice on 2026-01-01 — once at midnight and
once via the deferred-startup path — so rotation is not at-most-once per
date. -/
theorem rotation_twice_same_date_counterexample :
    (runOps opsC9 initialExtensionState).2.map (fun e => e.date) =
      ["2026-01-01", "2026-01-01"] ∧
    ¬ ((runOps opsC9 initialExtensionState).2.map (fun e => e.date)).Nodup := by
  constructor
  · rfl
  · decide

instance (a b : String) : Decidable (dateLe a b) := by
  unfold dateLe
  infer_instance

/-- A next-day midnight environment for the C9 witness. -/
def envC9c : RotEnv :=
  { today := "2026-01-02", nowIso := "t3", isActive := false, prompt := none, pick := 0 }

/-- The C9 witness trace: two midnights on consecutive dates. -/
def opsC9w : List RotOp :=
  [RotOp.createCol "c1" "My", RotOp.addWall "c1" wallC9, RotOp.enableRotation "c1",
    RotOp.midnight envC9a, RotOp.midnight envC9c]

/-- C9 witness: the amended theorem applied to a concrete monotone
trace. -/
theorem midnight_rotation_once_per_date_witness :
    (midnightDates (runOps opsC9w initialExtensionState).2).Nodup :=
  midnight_rotation_once_per_date opsC9w (by decide)
